import Mathlib

/-!
Shallow embedding of the bitcoin-broker profit-collection engine.

The `rust_decimal::Decimal` arithmetic of the source is modelled by exact
rationals (the spec mandates an exact decimal representation; every operation
the code performs — add, sub, mul, div by nonzero constants — is exact here).
`uuid::Uuid` is modelled by `Nat`; `Uuid::new_v4()` draws a fresh random id,
which no claim depends on, so constructors model it with a fixed value.
`BinaryHeap<Purchase>` with the reversed `Ord` of the source (lower rate = greater
element) is modelled by a list kept sorted with the maximal element — the
lowest-rate purchase — at the head; `push` is ordered insertion driven by the
comparison of the source, `peek`/`pop` read the head.
-/

namespace BitcoinBroker

/-- src/prelude.rs: `pub type Btc = Decimal;` etc. All decimal domains. -/
abbrev Decimal := ℚ

/-- Bitcoin currency. -/
abbrev Btc := Decimal

/-- How much hard currency we have to pay to get one bitcoin. -/
abbrev BtcExchangeRate := Decimal

/-- Hard currency such as dollar. -/
abbrev Cash := Decimal

/-- A number type referring to percents. -/
abbrev Percentage := Decimal

/-- Unique identifiers; stands in for `uuid::Uuid`. -/
abbrev Uuid := Nat

/-- src/models.rs `Purchase`: id, bitcoin quantity, effective buy rate. -/
structure Purchase where
  id : Uuid
  btc : Btc
  rate : BtcExchangeRate
  deriving DecidableEq, Repr

/-- src/models.rs `Fee`: the cut policy of the provider. -/
inductive Fee where
  | Percentage (p : Percentage)
  | None
  deriving DecidableEq, Repr

/-- src/models.rs `Offer`: a batch of purchases proposed for sale at a rate. -/
structure Offer where
  id : Uuid
  rate : BtcExchangeRate
  purchases : List Purchase
  deriving DecidableEq, Repr

/-- src/models.rs `impl Ord for Purchase`:
reversed comparison of the rates, so the
lower the rate the greater the purchase. -/
def Purchase.cmp (self other : Purchase) : Ordering :=
  if other.rate < self.rate then Ordering.lt
  else if other.rate = self.rate then Ordering.eq
  else Ordering.gt

/-- src/models.rs `Purchase::buying_price`: `self.btc * self.rate`. -/
def Purchase.buying_price (self : Purchase) : Cash :=
  self.btc * self.rate

/-- src/models.rs `Purchase::margin`:
`self.btc * current_trend - self.buying_price()`. -/
def Purchase.margin (self : Purchase) (current_trend : BtcExchangeRate) : Cash :=
  self.btc * current_trend - self.buying_price

/-- src/models.rs `Purchase::margin_after_fee`: deduct the cut of the provider
`flat_fee = margin / 100 * p` for a percentage fee; identity for `Fee::None`. -/
def Purchase.margin_after_fee (self : Purchase) (current_trend : BtcExchangeRate)
    (fee : Fee) : Cash :=
  let margin := self.margin current_trend
  match fee with
  | Fee.Percentage p => margin - margin / 100 * p
  | Fee.None => margin

/-- src/models.rs `pub type PurchaseAccount = BinaryHeap<Purchase>;`, modelled
as a list sorted with the heap maximum (lowest buy rate) at the head. -/
abbrev PurchaseAccount := List Purchase

/-- `BinaryHeap::push`: ordered insertion under the `Purchase::cmp` of the source.
An element `q` keeps its place in front of the new element `p` exactly when
`p < q` under the reversed order, i.e. when `q.rate < p.rate`. -/
def PurchaseAccount.push : PurchaseAccount → Purchase → PurchaseAccount
  | [], p => [p]
  | q :: qs, p =>
    if Purchase.cmp p q = Ordering.lt then q :: PurchaseAccount.push qs p
    else p :: q :: qs

/-- `BinaryHeap::peek`: the maximal element — the lowest-rate purchase. -/
def PurchaseAccount.peek (account : PurchaseAccount) : Option Purchase :=
  account.head?

/-- `BinaryHeap::pop`: removes and returns the element `peek` shows. -/
def PurchaseAccount.pop (account : PurchaseAccount) :
    Option Purchase × PurchaseAccount :=
  (account.head?, account.tail)

/-- Draining loop of `pop` calls, fuelled by the account size. -/
def PurchaseAccount.pop_all_fuel : Nat → PurchaseAccount → List Purchase
  | 0, _ => []
  | fuel + 1, account =>
    match PurchaseAccount.pop account with
    | (some p, rest) => p :: PurchaseAccount.pop_all_fuel fuel rest
    | (none, _) => []

/-- Repeatedly `pop` until the account is empty, collecting the results. -/
def PurchaseAccount.pop_all (account : PurchaseAccount) : List Purchase :=
  PurchaseAccount.pop_all_fuel account.length account

/-- src/models.rs `Offer::new` (the fresh random uuid is modelled as 0). -/
def Offer.new (rate : BtcExchangeRate) (purchases : List Purchase) : Offer :=
  { id := 0, rate := rate, purchases := purchases }

/-- The sell test in the loop body of src/seller.rs `collect_profit`:
`margin_after_fee rate fee > buying_price / 100 * min_margin`. -/
def sells (rate : BtcExchangeRate) (fee : Fee) (min_margin : Percentage)
    (p : Purchase) : Bool :=
  p.margin_after_fee rate fee > p.buying_price / 100 * min_margin

/-- The `loop` of src/seller.rs `collect_profit`: peek the best purchase,
pop it while it passes the sell test, stop at the first failure or when the
account is empty. Returns the popped purchases in pop order together with
the remaining account. -/
def collect_profit_loop (rate : BtcExchangeRate) (fee : Fee)
    (min_margin : Percentage) : PurchaseAccount → List Purchase × PurchaseAccount
  | [] => ([], [])
  | p :: rest =>
    if sells rate fee min_margin p then
      let r := collect_profit_loop rate fee min_margin rest
      (p :: r.1, r.2)
    else ([], p :: rest)

/-- src/seller.rs `collect_profit`: runs the loop, and wraps a non-empty batch
into an `Offer` at the current rate. The mutated account is returned as the
second component. -/
def collect_profit (account : PurchaseAccount) (rate : BtcExchangeRate)
    (fee : Fee) (min_margin : Percentage) : Option Offer × PurchaseAccount :=
  let r := collect_profit_loop rate fee min_margin account
  if r.1.isEmpty then (none, r.2) else (some (Offer.new rate r.1), r.2)

/-- Fuelled transcription of the source loop exactly as written: `peek`, test,
`pop().unwrap()` (the `unwrap` of a `None` pop is the panic, modelled as a
`none` result), `continue`; `break` on an empty peek or a failed test. `none`
is returned when the fuel runs out before the loop breaks. -/
def collect_profit_fuel (rate : BtcExchangeRate) (fee : Fee)
    (min_margin : Percentage) :
    Nat → PurchaseAccount → List Purchase →
      Option (List Purchase × PurchaseAccount)
  | 0, _, _ => none
  | fuel + 1, account, purchases_to_sell =>
    match PurchaseAccount.peek account with
    | some top_purchase =>
      if sells rate fee min_margin top_purchase then
        match PurchaseAccount.pop account with
        | (some popped, rest) =>
          collect_profit_fuel rate fee min_margin fuel rest
            (purchases_to_sell ++ [popped])
        | (none, _) => none
      else some (purchases_to_sell, account)
    | none => some (purchases_to_sell, account)

/-- Timestamps (`std::time::Instant`) modelled as points on the rational
line, in seconds. -/
abbrev Instant := ℚ

/-- src/seller.rs `Instant::now().duration_since(observed_at)`: the elapsed
duration, saturating at zero when the observation is not in the past. -/
def duration_since (now observed_at : Instant) : ℚ :=
  max (now - observed_at) 0

/-- src/seller.rs `const _5MIN: Duration = Duration::from_secs(5 * 60);`. -/
def _5MIN : ℚ := 5 * 60

/-- src/seller.rs `Message`: the inbound protocol of the seller actor. -/
inductive Message where
  | TrendReading (current_trend : BtcExchangeRate) (observed_at : Instant)
  | NewPurchase (purchase : Purchase)

/-- src/seller.rs `State`: the ledger and the fixed policies of the actor. -/
structure State where
  account : PurchaseAccount
  fee : Fee
  min_margin : Percentage
  deriving DecidableEq, Repr

/-- src/prelude.rs `Error::outdated_message()`, the only error the core
constructs. -/
inductive SellerError where
  | outdated_message
  deriving DecidableEq, Repr

/-- src/seller.rs `route`: drops a trend reading older than five minutes with
an error, otherwise collects profit at the read rate; a new purchase is pushed
onto the account. The (possibly mutated) state is returned alongside. Real
time enters only through the explicit `now` argument. -/
def route (now : Instant) (message : Message) (state : State) :
    Except SellerError (Option Offer) × State :=
  match message with
  | Message.TrendReading current_trend observed_at =>
    if duration_since now observed_at > _5MIN then
      (Except.error SellerError.outdated_message, state)
    else
      let r := collect_profit state.account current_trend state.fee
        state.min_margin
      (Except.ok r.1, { state with account := r.2 })
  | Message.NewPurchase purchase =>
    (Except.ok none, { state with account := state.account.push purchase })

/-- The processing loop spawned by src/seller.rs `spawn`, applied to a finite
inbound stream of timestamped messages: each message is routed; an `Ok(Some)`
offer is emitted downstream, an `Ok(None)` produces nothing, and an `Err` is
logged while the actor continues with the next message. Returns the emitted
offers in order and the final state. -/
def run_seller (state : State) :
    List (Instant × Message) → List Offer × State
  | [] => ([], state)
  | (now, message) :: rest =>
    let r := route now message state
    let rec_rest := run_seller r.2 rest
    match r.1 with
    | Except.ok (some offer) => (offer :: rec_rest.1, rec_rest.2)
    | Except.ok none => rec_rest
    | Except.error _ => rec_rest

namespace MainRs

/-- src/main.rs `Fee`: the fee policy of the standalone binary has only the
percentage variant. -/
inductive Fee where
  | Percentage (p : Percentage)
  deriving DecidableEq, Repr

/-- src/main.rs `Purchase::margin_after_fee`: like the library version but
matching only on `Fee::Percentage`. -/
def margin_after_fee (self : Purchase) (current_trend : BtcExchangeRate)
    (fee : Fee) : Cash :=
  let margin := self.margin current_trend
  match fee with
  | Fee.Percentage p => margin - margin / 100 * p

/-- The sell test in the loop body of src/main.rs `collect_profit`. -/
def sells (rate : BtcExchangeRate) (fee : Fee)
    (purchase_minimum_margin : Percentage) (p : Purchase) : Bool :=
  margin_after_fee p rate fee > p.buying_price / 100 * purchase_minimum_margin

/-- The `loop` of src/main.rs `collect_profit`. -/
def collect_profit_loop (rate : BtcExchangeRate) (fee : Fee)
    (purchase_minimum_margin : Percentage) :
    PurchaseAccount → List Purchase × PurchaseAccount
  | [] => ([], [])
  | p :: rest =>
    if sells rate fee purchase_minimum_margin p then
      let r := collect_profit_loop rate fee purchase_minimum_margin rest
      (p :: r.1, r.2)
    else ([], p :: rest)

/-- src/main.rs `collect_profit`, the standalone twin of the one in src/seller.rs. -/
def collect_profit (account : PurchaseAccount) (rate : BtcExchangeRate)
    (fee : Fee) (purchase_minimum_margin : Percentage) :
    Option Offer × PurchaseAccount :=
  let r := collect_profit_loop rate fee purchase_minimum_margin account
  if r.1.isEmpty then (none, r.2) else (some (Offer.new rate r.1), r.2)

end MainRs

/-- The purchases carried by an optional offer; `none` carries none. -/
def offer_purchases : Option Offer → List Purchase
  | some o => o.purchases
  | none => []

/-- Scenario purchase of src/seller.rs tests: qty 5 at rate 450. -/
def purchase_for_450 : Purchase := { id := 1, btc := 5, rate := 450 }

/-- Scenario purchase of src/seller.rs tests: qty 1 at rate 900. -/
def purchase_for_900 : Purchase := { id := 2, btc := 1, rate := 900 }

/-- Scenario purchase of src/seller.rs tests: qty 5 at rate 1000. -/
def purchase_for_1000 : Purchase := { id := 3, btc := 5, rate := 1000 }

/-- The scenario ledger, pushed in the order the test pushes it. -/
def scenario_account : PurchaseAccount :=
  PurchaseAccount.push
    (PurchaseAccount.push (PurchaseAccount.push [] purchase_for_1000)
      purchase_for_450)
    purchase_for_900

/-- Ascending buy-rate order on purchases. -/
def rate_le (a b : Purchase) : Prop := a.rate ≤ b.rate

instance : DecidableRel rate_le := fun a b =>
  inferInstanceAs (Decidable (a.rate ≤ b.rate))

instance : IsTotal Purchase rate_le := ⟨fun a b => le_total a.rate b.rate⟩

instance : IsTrans Purchase rate_le := ⟨fun _ _ _ h h2 => le_trans h h2⟩

lemma cmp_eq_lt_iff (p q : Purchase) :
    Purchase.cmp p q = Ordering.lt ↔ q.rate < p.rate := by
  unfold Purchase.cmp
  split
  · simp [*]
  · split <;> simp_all

lemma push_eq_orderedInsert (account : PurchaseAccount) (p : Purchase) :
    account.push p = List.orderedInsert rate_le p account := by
  induction account with
  | nil => rfl
  | cons q qs ih =>
    simp only [PurchaseAccount.push, List.orderedInsert, ih]
    rcases lt_or_le q.rate p.rate with h | h
    · rw [if_pos ((cmp_eq_lt_iff p q).mpr h),
        if_neg (by simpa [rate_le] using not_le.mpr h)]
    · rw [if_neg (by simp [cmp_eq_lt_iff, not_lt.mpr h]),
        if_pos (by simpa [rate_le] using h)]

lemma sorted_push {account : PurchaseAccount} (p : Purchase)
    (h : List.Sorted rate_le account) :
    List.Sorted rate_le (account.push p) := by
  rw [push_eq_orderedInsert]
  exact h.orderedInsert p account

lemma sorted_foldl_push (ps : List Purchase) :
    ∀ account : PurchaseAccount, List.Sorted rate_le account →
      List.Sorted rate_le (ps.foldl PurchaseAccount.push account) := by
  induction ps with
  | nil => exact fun _ h => h
  | cons p ps ih =>
    intro account h
    exact ih _ (sorted_push p h)

lemma pop_all_fuel_id :
    ∀ account : PurchaseAccount,
      PurchaseAccount.pop_all_fuel account.length account = account := by
  intro account
  induction account with
  | nil => rfl
  | cons p rest ih =>
    simp [PurchaseAccount.pop_all_fuel, PurchaseAccount.pop, ih]

lemma pop_all_id (account : PurchaseAccount) :
    PurchaseAccount.pop_all account = account :=
  pop_all_fuel_id account

lemma collect_profit_loop_eq (rate : BtcExchangeRate) (fee : Fee)
    (min_margin : Percentage) (account : PurchaseAccount) :
    collect_profit_loop rate fee min_margin account
      = (account.takeWhile (sells rate fee min_margin),
         account.dropWhile (sells rate fee min_margin)) := by
  induction account with
  | nil => rfl
  | cons p rest ih =>
    by_cases h : sells rate fee min_margin p
    · simp [collect_profit_loop, h, ih, List.takeWhile_cons, List.dropWhile_cons]
    · simp [collect_profit_loop, h, List.takeWhile_cons, List.dropWhile_cons]

lemma takeWhile_dropWhile_eq_nil {α : Type} (p : α → Bool) :
    ∀ l : List α, ((l.dropWhile p).takeWhile p) = [] := by
  intro l
  induction l with
  | nil => rfl
  | cons a t ih =>
    cases hpa : p a with
    | true => simpa [List.dropWhile_cons, hpa] using ih
    | false => simp [List.dropWhile_cons, hpa, List.takeWhile_cons]

lemma dropWhile_eq_self_of_takeWhile_eq_nil {α : Type} {p : α → Bool}
    {l : List α} (h : l.takeWhile p = []) : l.dropWhile p = l := by
  cases l with
  | nil => rfl
  | cons a t =>
    rw [List.takeWhile_cons] at h
    cases hpa : p a with
    | true => simp [hpa] at h
    | false => simp [List.dropWhile_cons, hpa]

lemma collect_profit_eq (account : PurchaseAccount) (rate : BtcExchangeRate)
    (fee : Fee) (min_margin : Percentage) :
    collect_profit account rate fee min_margin
      = (if account.takeWhile (sells rate fee min_margin) = []
          then none
          else some (Offer.new rate
            (account.takeWhile (sells rate fee min_margin))),
         account.dropWhile (sells rate fee min_margin)) := by
  unfold collect_profit
  rw [collect_profit_loop_eq]
  by_cases h : account.takeWhile (sells rate fee min_margin) = []
  · simp [h]
  · simp [h]

lemma collect_profit_fuel_eq (rate : BtcExchangeRate) (fee : Fee)
    (min_margin : Percentage) :
    ∀ (account : PurchaseAccount) (sold : List Purchase),
      collect_profit_fuel rate fee min_margin (account.length + 1) account sold
        = some (sold ++ (collect_profit_loop rate fee min_margin account).1,
                (collect_profit_loop rate fee min_margin account).2) := by
  intro account
  induction account with
  | nil =>
    intro sold
    simp [collect_profit_fuel, PurchaseAccount.peek, collect_profit_loop]
  | cons p rest ih =>
    intro sold
    rw [collect_profit_fuel.eq_2]
    by_cases h : sells rate fee min_margin p
    · simp only [List.length_cons, PurchaseAccount.peek, List.head?_cons, h,
        if_true, PurchaseAccount.pop, List.tail_cons]
      rw [ih (sold ++ [p])]
      simp [collect_profit_loop, h]
    · simp [PurchaseAccount.peek, h, collect_profit_loop]

lemma mainrs_sells_eq (rate : BtcExchangeRate) (p : Percentage)
    (min_margin : Percentage) (q : Purchase) :
    MainRs.sells rate (MainRs.Fee.Percentage p) min_margin q
      = sells rate (Fee.Percentage p) min_margin q := rfl

lemma scenario_account_eq :
    scenario_account
      = [purchase_for_450, purchase_for_900, purchase_for_1000] := by
  unfold scenario_account purchase_for_450 purchase_for_900 purchase_for_1000
  norm_num [PurchaseAccount.push, Purchase.cmp]
  decide

lemma sells_scenario_450 :
    sells 1000 (Fee.Percentage 1) 5 purchase_for_450 = true := by
  norm_num [sells, Purchase.margin_after_fee, Purchase.margin,
    Purchase.buying_price, purchase_for_450]

lemma sells_scenario_900 :
    sells 1000 (Fee.Percentage 1) 5 purchase_for_900 = true := by
  norm_num [sells, Purchase.margin_after_fee, Purchase.margin,
    Purchase.buying_price, purchase_for_900]

lemma sells_scenario_1000 :
    sells 1000 (Fee.Percentage 1) 5 purchase_for_1000 = false := by
  norm_num [sells, Purchase.margin_after_fee, Purchase.margin,
    Purchase.buying_price, purchase_for_1000]

/-- C1: for every ledger state, rate, fee policy and minimum margin, the
`collect_profit` loop examines only the current best (lowest-rate) purchase:
it pops exactly the purchases passing the sell test, stopping at the first
best purchase failing it, so the popped purchases and the remaining account
are precisely the `takeWhile` and `dropWhile` of the sell test, the popped
purchases are an initial segment of the rate-ascending account contents,
and the sell test holds exactly when the net margin strictly exceeds
`buying_price * min_margin / 100`. -/
theorem collect_profit_pops_best_while_margin_exceeds :
    ∀ (account : PurchaseAccount) (rate : BtcExchangeRate) (fee : Fee)
      (min_margin : Percentage),
      collect_profit_loop rate fee min_margin account
          = (account.takeWhile (sells rate fee min_margin),
             account.dropWhile (sells rate fee min_margin))
        ∧ (collect_profit_loop rate fee min_margin account).1 <+: account
        ∧ ∀ p : Purchase,
            sells rate fee min_margin p = true
              ↔ p.margin_after_fee rate fee
                  > p.buying_price * min_margin / 100 := by
  intro account rate fee min_margin
  refine ⟨collect_profit_loop_eq rate fee min_margin account, ?_, ?_⟩
  · rw [collect_profit_loop_eq]
    exact ⟨account.dropWhile (sells rate fee min_margin), by
      simp [List.takeWhile_append_dropWhile]⟩
  · intro p
    unfold sells
    rw [decide_eq_true_eq]
    constructor
    · intro h
      calc p.buying_price * min_margin / 100
          = p.buying_price / 100 * min_margin := by ring
        _ < p.margin_after_fee rate fee := h
    · intro h
      calc p.buying_price / 100 * min_margin
          = p.buying_price * min_margin / 100 := by ring
        _ < p.margin_after_fee rate fee := h

/-- C2: `collect_profit` returns `some` offer exactly when at least one
purchase passes the sell test; the offer carries `rate = current_rate` and
the popped purchases in pop order, and `Offer::new` stores its arguments
unchanged. When nothing qualifies the result is `none`. -/
theorem collect_profit_offer_rate_and_purchases :
    (∀ (account : PurchaseAccount) (rate : BtcExchangeRate) (fee : Fee)
        (min_margin : Percentage),
        collect_profit account rate fee min_margin
          = (if account.takeWhile (sells rate fee min_margin) = []
              then none
              else some (Offer.new rate
                (account.takeWhile (sells rate fee min_margin))),
             account.dropWhile (sells rate fee min_margin)))
      ∧ (∀ (rate : BtcExchangeRate) (purchases : List Purchase),
          (Offer.new rate purchases).rate = rate
            ∧ (Offer.new rate purchases).purchases = purchases) := by
  constructor
  · exact collect_profit_eq
  · intro rate purchases
    exact ⟨rfl, rfl⟩

/-- C4: `margin_after_fee` with `Fee::Percentage(p)` returns exactly
`g - (g / 100) * p` where `g = btc * current_trend - btc * rate` is the gross
margin, and with `Fee::None` it returns `g` unchanged; it is a total function
of its rational arguments. -/
theorem margin_after_fee_spec :
    ∀ (purchase : Purchase) (current_trend : BtcExchangeRate)
      (p : Percentage),
      purchase.margin_after_fee current_trend (Fee.Percentage p)
          = (purchase.btc * current_trend - purchase.btc * purchase.rate)
            - (purchase.btc * current_trend - purchase.btc * purchase.rate)
              / 100 * p
        ∧ purchase.margin_after_fee current_trend Fee.None
          = purchase.btc * current_trend - purchase.btc * purchase.rate := by
  intro purchase current_trend p
  exact ⟨rfl, rfl⟩

/-- C5: draining an account built by any sequence of pushes onto the empty
account returns the purchases in non-decreasing buy-rate order; `peek`
returns exactly the purchase the next `pop` returns, and both return `none`
on the empty account. -/
theorem account_pop_order_sorted_by_rate :
    (∀ ps : List Purchase,
        List.Sorted rate_le
          (PurchaseAccount.pop_all (ps.foldl PurchaseAccount.push [])))
      ∧ (∀ account : PurchaseAccount,
          PurchaseAccount.peek account = (PurchaseAccount.pop account).1)
      ∧ PurchaseAccount.peek [] = none
      ∧ (PurchaseAccount.pop []).1 = none := by
  refine ⟨?_, fun _ => rfl, rfl, rfl⟩
  intro ps
  rw [pop_all_id]
  exact sorted_foldl_push ps [] List.sorted_nil

/-- C6: an immediate second `collect_profit` with the same rate, fee and
minimum margin on the account left by a first call returns no offer: every
qualifying purchase was already removed and the new best purchase, if any,
fails the threshold. -/
theorem collect_profit_twice_returns_none :
    ∀ (account : PurchaseAccount) (rate : BtcExchangeRate) (fee : Fee)
      (min_margin : Percentage),
      (collect_profit (collect_profit account rate fee min_margin).2
          rate fee min_margin).1 = none := by
  intro account rate fee min_margin
  rw [collect_profit_eq, collect_profit_eq]
  simp [takeWhile_dropWhile_eq_nil]

/-- C3: a `TrendReading` whose observation age exceeds the five-minute
staleness threshold never produces an offer, however profitable the ledger
would be at that rate: `route` returns the outdated-message error, leaves the
state (and so the ledger) unchanged, and the seller loop emits nothing for
the message and continues with the rest of the stream. -/
theorem stale_trend_reading_yields_error_and_no_offer :
    ∀ (state : State) (current_trend : BtcExchangeRate)
      (observed_at now : Instant) (rest : List (Instant × Message)),
      duration_since now observed_at > _5MIN →
        (route now (Message.TrendReading current_trend observed_at) state).1
            = Except.error SellerError.outdated_message
          ∧ (route now (Message.TrendReading current_trend observed_at)
              state).2 = state
          ∧ run_seller state
              ((now, Message.TrendReading current_trend observed_at) :: rest)
            = run_seller state rest := by
  intro state current_trend observed_at now rest h
  have hroute :
      route now (Message.TrendReading current_trend observed_at) state
        = (Except.error SellerError.outdated_message, state) := by
    simp only [route]
    rw [if_pos h]
  refine ⟨by rw [hroute], by rw [hroute], ?_⟩
  simp [run_seller, hroute]

/-- C3 witness: a reading observed 1000 seconds before `now`, against a
ledger holding a purchase bought at rate 450 that would be hugely profitable
at the read rate 1000, is rejected with the outdated-message error, mutates
nothing, and the loop continues. -/
theorem stale_trend_reading_yields_error_and_no_offer_witness :
    duration_since 1000 0 > _5MIN
      ∧ ((route 1000 (Message.TrendReading 1000 0)
              ⟨[⟨1, 5, 450⟩], Fee.None, 0⟩).1
            = Except.error SellerError.outdated_message
          ∧ (route 1000 (Message.TrendReading 1000 0)
              ⟨[⟨1, 5, 450⟩], Fee.None, 0⟩).2 = ⟨[⟨1, 5, 450⟩], Fee.None, 0⟩
          ∧ run_seller ⟨[⟨1, 5, 450⟩], Fee.None, 0⟩
              [(1000, Message.TrendReading 1000 0)]
            = run_seller ⟨[⟨1, 5, 450⟩], Fee.None, 0⟩ []) := by
  have h : duration_since (1000 : ℚ) 0 > _5MIN := by
    norm_num [duration_since, _5MIN]
  exact ⟨h, stale_trend_reading_yields_error_and_no_offer _ _ _ _ _ h⟩

/-- C7: on the ledger holding (qty 5, rate 450), (qty 1, rate 900),
(qty 5, rate 1000), with a 1% fee, rate 1000 and a 5% minimum margin,
`collect_profit` returns an offer with exactly the rate-450 purchase followed
by the rate-900 purchase, and leaves the rate-1000 purchase in the ledger. -/
theorem scenario_b_offer :
    collect_profit scenario_account 1000 (Fee.Percentage 1) 5
      = (some (Offer.new 1000 [purchase_for_450, purchase_for_900]),
         [purchase_for_1000]) := by
  rw [collect_profit_eq, scenario_account_eq]
  simp [List.takeWhile_cons, List.dropWhile_cons, sells_scenario_450,
    sells_scenario_900, sells_scenario_1000]

/-- C8: `collect_profit` conserves purchases: the account contents before
the call are exactly the offered purchases followed by the remaining account,
as lists and hence as multisets — no purchase is created, duplicated, lost,
or has its id, quantity or rate changed. -/
theorem collect_profit_conserves_purchases :
    ∀ (account : PurchaseAccount) (rate : BtcExchangeRate) (fee : Fee)
      (min_margin : Percentage),
      offer_purchases (collect_profit account rate fee min_margin).1
          ++ (collect_profit account rate fee min_margin).2 = account
        ∧ (↑(offer_purchases (collect_profit account rate fee min_margin).1
            ++ (collect_profit account rate fee min_margin).2)
              : Multiset Purchase)
          = (↑account : Multiset Purchase) := by
  intro account rate fee min_margin
  have h : offer_purchases (collect_profit account rate fee min_margin).1
      ++ (collect_profit account rate fee min_margin).2 = account := by
    rw [collect_profit_eq]
    by_cases hnil : account.takeWhile (sells rate fee min_margin) = []
    · simp [hnil, offer_purchases, dropWhile_eq_self_of_takeWhile_eq_nil hnil]
    · simp [hnil, offer_purchases, Offer.new, List.takeWhile_append_dropWhile]
  exact ⟨h, by rw [h]⟩

/-- C9: the loop of `collect_profit`, transcribed with its `peek`, `pop` and
`unwrap` and run on a fuel budget of account-size plus one iterations,
finishes within that budget without ever hitting the `unwrap` panic, and
computes the same batch and remaining account as the loop itself. -/
theorem collect_profit_loop_fuel_bounded :
    ∀ (account : PurchaseAccount) (rate : BtcExchangeRate) (fee : Fee)
      (min_margin : Percentage),
      collect_profit_fuel rate fee min_margin (account.length + 1) account []
        = some (collect_profit_loop rate fee min_margin account) := by
  intro account rate fee min_margin
  rw [collect_profit_fuel_eq]
  simp

/-- C10: the standalone `collect_profit` of src/main.rs and the seller
`collect_profit` of src/seller.rs agree on their common fee domain: with a
percentage fee they select the same purchases in the same order, build the
same offer (or both none) and leave the same remaining account. -/
theorem main_collect_profit_equiv_seller :
    ∀ (account : PurchaseAccount) (rate : BtcExchangeRate)
      (p : Percentage) (min_margin : Percentage),
      MainRs.collect_profit account rate (MainRs.Fee.Percentage p) min_margin
        = collect_profit account rate (Fee.Percentage p) min_margin := by
  intro account rate p min_margin
  have hloop : ∀ acc : PurchaseAccount,
      MainRs.collect_profit_loop rate (MainRs.Fee.Percentage p) min_margin acc
        = collect_profit_loop rate (Fee.Percentage p) min_margin acc := by
    intro acc
    induction acc with
    | nil => rfl
    | cons q rest ih =>
      simp only [MainRs.collect_profit_loop, collect_profit_loop,
        mainrs_sells_eq, ih]
  unfold MainRs.collect_profit collect_profit
  rw [hloop]

end BitcoinBroker
